import Mathlib

/-!
Verification development for the AMI HTTP client (src/client.js).

The file shallow-embeds the parts of the client that the specification
talks about: the option fallbacks of execute, the placeholder
substitution over command templates (the regex at line 49 together with
the replace callback at lines 114-121), the request-body construction
(lines 125-131), the timeout/transport race of execute (lines 140-264),
the success/failure classification of decoded JSON envelopes
(lines 180-190), and the session-normalizing wrapper getUserInfo with
its guest fallback (lines 271-397).

JavaScript strings are modelled as Lean strings or lists of characters,
JavaScript objects as association lists with assign-in-place-or-append
update (the semantics of JS property assignment and object spread), and
the JSPath collaborator as structural queries over an explicit payload
type.  The event-loop behaviour of execute is modelled as a small state
machine whose events are the atomic handler executions of the promise
chain.
-/

/-- Set of characters removed by the JavaScript String.prototype.trim
(whitespace and line terminators; the common code points). -/
def jsWhitespaceChar (c : Char) : Bool :=
  c = ' ' || c = '\t' || c = '\n' || c = '\r' || c = '\x0b' || c = '\x0c' ||
  c = '\xa0' || c = Char.ofNat 0x2028 || c = Char.ofNat 0x2029 ||
  c = Char.ofNat 0xfeff

/-- Leading- and trailing-whitespace removal on a character list. -/
def jsTrimChars (s : List Char) : List Char :=
  ((s.dropWhile jsWhitespaceChar).reverse.dropWhile jsWhitespaceChar).reverse

/-- JavaScript String.prototype.trim, as used on the endpoint, the
converter and the command in execute. -/
def jsTrim (s : String) : String :=
  String.mk (jsTrimChars s.data)

/-- JavaScript values that can show up as command parameters and extras
entries in this client: strings, (integer) numbers, booleans, null and
undefined. -/
inductive JSValue : Type where
  | str (s : String)
  | num (n : Int)
  | boolean (b : Bool)
  | jnull
  | undef
deriving DecidableEq

/-- JavaScript string coercion (the ToString abstract operation), as
performed by encodeURIComponent on its argument. -/
def jsToString : JSValue → String
  | .str s => s
  | .num n => toString n
  | .boolean true => "true"
  | .boolean false => "false"
  | .jnull => "null"
  | .undef => "undefined"

/-- Discriminates the two branches of the replace callback at line 118:
Object.prototype.toString.call(rawValue) === a String tag. -/
def isStringValue : JSValue → Bool
  | .str _ => true
  | _ => false

/-- Options dictionary of execute (line 98), restricted to the fields
the fallback logic at lines 104-110 inspects.  A missing field is
undefined, hence falsy; a present string field is falsy exactly when
empty, a present numeric timeout is falsy exactly when zero. -/
structure ExecOptions : Type where
  endpoint : Option String
  converter : Option String
  timeout : Option Int
deriving DecidableEq

/-- Instance default of the private converter field (line 47). -/
def defaultConverter : String := "AMIXmlToJson.xsl"

/-- Effective endpoint: (options.endpoint || this.#endpoint).trim()
(line 104). -/
def effectiveEndpoint (o : ExecOptions) (instEndpoint : String) : String :=
  jsTrim (match o.endpoint with
    | none => instEndpoint
    | some s => if s = "" then instEndpoint else s)

/-- Effective converter: (options.converter || this.#converter).trim()
(line 105). -/
def effectiveConverter (o : ExecOptions) : String :=
  jsTrim (match o.converter with
    | none => defaultConverter
    | some s => if s = "" then defaultConverter else s)

/-- Effective timeout: options.timeout || 120000 (line 110). -/
def effectiveTimeout (o : ExecOptions) : Int :=
  match o.timeout with
  | none => 120000
  | some t => if t = 0 then 120000 else t

/-- One element of the AMIMessage array of a decoded envelope, reduced
to what the JSPath queries of execute observe: the dollar values of its
info items and of its error items. -/
structure AMIMessageEntry : Type where
  info : List String
  error : List String
deriving DecidableEq

/-- One field of a row: an at-name attribute and a dollar value. -/
structure RowField : Type where
  name : String
  val : String
deriving DecidableEq

/-- One row of a rowset: its list of fields. -/
structure Row : Type where
  field : List RowField
deriving DecidableEq

/-- A typed rowset: the at-type attribute and its rows. -/
structure Rowset : Type where
  type : String
  rows : List Row
deriving DecidableEq

/-- A decoded JSON payload, reduced to the two structural regions the
client queries: the AMIMessage array (for classification) and the
rowsets reachable by the descendant rowset queries (for session
normalization). -/
structure JSData : Type where
  messages : List AMIMessageEntry
  rowsets : List Rowset
deriving DecidableEq

/-- Result of the JSPath query for all info message texts
(line 180). -/
def infosOf (d : JSData) : List String :=
  d.messages.flatMap (fun m => m.info)

/-- Result of the JSPath query for all error message texts
(line 181). -/
def errorsOf (d : JSData) : List String :=
  d.messages.flatMap (fun m => m.error)

/-- The synthesized error envelope built by the private static error
helper (lines 84-87). -/
def errorEnvelope (message : String) : JSData :=
  ⟨[⟨[], [message]⟩], []⟩

/-- The private errorMessage constant (line 53), used verbatim on both
the transport-failure path and the decode-failure path. -/
def errorMessage : String := "resource temporarily unreachable"

/-- Joining of message lists with a dot-space separator, as done by the
two join calls at lines 185 and 189. -/
def joinDot (l : List String) : String := String.intercalate (". ") l

/-- A promise settlement of execute: the payload and the message it was
resolved or rejected with. -/
inductive Settlement (π : Type) : Type where
  | resolved (data : π) (message : String)
  | rejected (data : π) (message : String)
deriving DecidableEq

/-- Whether a settlement is a resolution (success). -/
def Settlement.isSuccess {π : Type} : Settlement π → Bool
  | .resolved _ _ => true
  | .rejected _ _ => false

/-- Classification of a decoded envelope performed at lines 183-190:
zero error messages resolve with the joined info texts, one or more
error messages reject with the joined error texts. -/
def classifySettlement (d : JSData) : Settlement JSData :=
  if (errorsOf d).length = 0 then
    .resolved d (joinDot (infosOf d))
  else
    .rejected d (joinDot (errorsOf d))

/-- JS object property assignment on an association list: overwrite the
first binding of the key in place, or append a fresh binding. -/
def objInsert {β : Type} : List (String × β) → String → β → List (String × β)
  | [], k, v => [(k, v)]
  | (k0, v0) :: rest, k, v =>
      if k0 = k then (k0, v) :: rest else (k0, v0) :: objInsert rest k v

/-- JS object property read on an association list. -/
def objLookup {β : Type} : List (String × β) → String → Option β
  | [], _ => none
  | (k0, v0) :: rest, k => if k0 = k then some v0 else objLookup rest k

/-- Rows of all rowsets with the given type attribute, the result of
the descendant rowset queries of getUserInfo. -/
def queryRows (t : String) (d : JSData) : List Row :=
  (d.rowsets.filter (fun rs => rs.type = t)).flatMap (fun rs => rs.rows)

/-- All fields of all rows of rowsets with the given type attribute,
the result of the row.field queries at lines 314 and 321. -/
def queryFields (t : String) (d : JSData) : List RowField :=
  (queryRows t d).flatMap (fun r => r.field)

/-- Fold of a field list into a flat attribute object, as done for the
user and awf rowsets and for the per-row objects of the keyed
rowsets. -/
def foldFields (fs : List RowField) : List (String × String) :=
  fs.foldl (fun acc f => objInsert acc f.name f.val) []

/-- The key a row is filed under: the loop at lines 333-341 initializes
the key to the empty string and overwrites it at every field whose name
attribute equals the key name, so the value of the last such field
wins. -/
def rowKeyVal (key : String) (row : Row) : String :=
  row.field.foldl (fun n f => if f.name = key then f.val else n) ""

/-- Fold of a row list into a keyed object of per-row field objects, as
done for the role (key name), bookmark and dashboard (key hash)
rowsets. -/
def foldKeyedRows (key : String) (rows : List Row) :
    List (String × List (String × String)) :=
  rows.foldl (fun acc row => objInsert acc (rowKeyVal key row) (foldFields row.field)) []

/-- The fixed guest record returned by the private static guest helper
(lines 271-289). -/
def guest : List (String × String) :=
  [("AMIUser", "guest"), ("guestUser", "guest"), ("clientDNInAMI", ""),
   ("issuerDNInAMI", ""), ("clientDNInSession", ""), ("issuerDNInSession", ""),
   ("notBefore", ""), ("notAfter", ""), ("mqttToken", ""),
   ("firstName", "guest"), ("lastName", "guest"), ("email", "N/A"),
   ("country", "N/A"), ("valid", "false")]

/-- Outcome of the Executor promise consumed by getUserInfo: the then
branch receives (data, message), the catch branch likewise. -/
inductive ExecResult : Type where
  | ok (data : JSData) (message : String)
  | err (data : JSData) (message : String)
deriving DecidableEq

/-- The positional argument tuple getUserInfo settles with: its success
flag, the payload, the message, and the five normalized mappings in the
order of lines 388 and 392. -/
structure NormSettlement : Type where
  success : Bool
  data : JSData
  message : String
  userInfo : List (String × String)
  roleInfo : List (String × List (String × String))
  bookmarkInfo : List (String × List (String × String))
  dashboardInfo : List (String × List (String × String))
  awfInfo : List (String × String)
deriving DecidableEq

/-- The session-normalizing wrapper getUserInfo (lines 298-397): on
Executor success it folds the user, awf, role, bookmark and dashboard
rowsets of the payload into the five mappings; on Executor failure it
settles with the guest record and four empty mappings while passing the
failure payload and message through. -/
def getUserInfo : ExecResult → NormSettlement
  | .ok d m =>
      ⟨true, d, m,
       foldFields (queryFields ("user") d),
       foldKeyedRows ("name") (queryRows ("role") d),
       foldKeyedRows ("hash") (queryRows ("bookmark") d),
       foldKeyedRows ("hash") (queryRows ("dashboard") d),
       foldFields (queryFields ("awf") d)⟩
  | .err d m =>
      ⟨false, d, m, guest, [], [], [], []⟩

/-- Mode-dependent settlement values of the two converter branches of
execute: the timeout rejection (line 152 resp. 218), the
transport-failure rejection of the fetch catch handler (line 202
resp. 258), the settlement computed from a successfully decoded body
(lines 183-190 resp. 246), and the body-decode-failure rejection
(line 194 resp. 250). -/
structure ModeConfig (π α : Type) : Type where
  timeoutS : Settlement π
  fetchErrS : Settlement π
  decodeOkS : α → Settlement π
  decodeErrS : Settlement π

/-- The JSON-converter branch of execute (lines 142-207): payloads are
decoded envelopes, decode success classifies by error count, failures
carry the synthesized error envelope. -/
def jsonConfig : ModeConfig JSData JSData :=
  ⟨.rejected (errorEnvelope ("timeout")) ("timeout"),
   .rejected (errorEnvelope errorMessage) errorMessage,
   classifySettlement,
   .rejected (errorEnvelope errorMessage) errorMessage⟩

/-- The raw-text branch of execute (lines 208-263): payloads are plain
strings, decode success always resolves with the text. -/
def rawConfig : ModeConfig String String :=
  ⟨.rejected ("timeout") ("timeout"),
   .rejected errorMessage errorMessage,
   fun t => .resolved t t,
   .rejected errorMessage errorMessage⟩

/-- State of one invocation of execute: whether the timer is still
armed (neither fired nor cleared), the inTime guard flag (line 148),
whether the fetch promise has already settled and run its handlers,
whether a response-body decode is pending (response.json or
response.text was called and its handlers have not run yet), and the
list of settlements performed so far on the outer promise. -/
structure ExecState (π : Type) : Type where
  timerActive : Bool
  inTime : Bool
  fetchDone : Bool
  decodePending : Bool
  settled : List (Settlement π)
deriving DecidableEq

/-- The atomic handler executions of one invocation of execute, in
event-loop order: the timer task, the fetch fulfillment handlers
(the finally clearing the timer followed in the same microtask drain by
the then handler), the fetch rejection handlers (finally followed by
catch), and the handlers of the body-decode promise. -/
inductive ExecEvent (α : Type) : Type where
  | timerFire
  | fetchOk
  | fetchErr
  | decodeOk (a : α)
  | decodeErr
deriving DecidableEq

/-- One atomic handler execution.  The timer callback (lines 150-156)
rejects with the timeout settlement and lowers the inTime flag; a
cleared or already-fired timer task is a no-op.  The fetch fulfillment
path (lines 170-197) clears the timer and, only when still in time,
starts the body decode; the fetch rejection path (lines 198-204) clears
the timer and, only when still in time, rejects with the
transport-failure settlement.  The decode handlers (lines 178-195) run
without rechecking the guard, which is sound because the timer was
already cleared before the decode started. -/
def execStep {π α : Type} (cfg : ModeConfig π α) (s : ExecState π) :
    ExecEvent α → ExecState π
  | .timerFire =>
      if s.timerActive then
        ⟨false, false, s.fetchDone, s.decodePending, s.settled ++ [cfg.timeoutS]⟩
      else s
  | .fetchOk =>
      if s.fetchDone then s
      else ⟨false, s.inTime, true, s.inTime, s.settled⟩
  | .fetchErr =>
      if s.fetchDone then s
      else ⟨false, s.inTime, true, false,
            if s.inTime then s.settled ++ [cfg.fetchErrS] else s.settled⟩
  | .decodeOk a =>
      if s.decodePending then
        ⟨s.timerActive, s.inTime, s.fetchDone, false, s.settled ++ [cfg.decodeOkS a]⟩
      else s
  | .decodeErr =>
      if s.decodePending then
        ⟨s.timerActive, s.inTime, s.fetchDone, false, s.settled ++ [cfg.decodeErrS]⟩
      else s

/-- State at the start of an invocation: timer armed, guard raised,
nothing settled. -/
def execInit (π : Type) : ExecState π :=
  ⟨true, true, false, false, []⟩

/-- State after an invocation of execute has observed the given
sequence of handler executions. -/
def execRun {π α : Type} (cfg : ModeConfig π α) (es : List (ExecEvent α)) :
    ExecState π :=
  es.foldl (execStep cfg) (execInit π)

/-- Lowercase hexadecimal digit, as emitted by the control-character
escapes of JSON.stringify. -/
def hexDigit : Nat → Char
  | 0 => '0' | 1 => '1' | 2 => '2' | 3 => '3' | 4 => '4' | 5 => '5'
  | 6 => '6' | 7 => '7' | 8 => '8' | 9 => '9' | 10 => 'a' | 11 => 'b'
  | 12 => 'c' | 13 => 'd' | 14 => 'e' | 15 => 'f' | _ => '0'

/-- Uppercase hexadecimal digit, as emitted by the percent escapes of
encodeURIComponent. -/
def hexDigitU : Nat → Char
  | 0 => '0' | 1 => '1' | 2 => '2' | 3 => '3' | 4 => '4' | 5 => '5'
  | 6 => '6' | 7 => '7' | 8 => '8' | 9 => '9' | 10 => 'A' | 11 => 'B'
  | 12 => 'C' | 13 => 'D' | 14 => 'E' | 15 => 'F' | _ => '0'

/-- Numeric value of a hexadecimal digit character. -/
def hexVal (c : Char) : Nat :=
  if c.toNat ≥ 97 then c.toNat - 87
  else if c.toNat ≥ 65 then c.toNat - 55
  else c.toNat - 48

/-- The escape sequence JSON.stringify produces for one character of a
string value: the two-character escapes for quote, backslash and the
named control characters, a four-digit unicode escape for the remaining
control characters, and the character itself otherwise. -/
def escChar (c : Char) : List Char :=
  if c = '"' then ['\\', '"']
  else if c = '\\' then ['\\', '\\']
  else if c = '\n' then ['\\', 'n']
  else if c = '\r' then ['\\', 'r']
  else if c = '\t' then ['\\', 't']
  else if c = '\x08' then ['\\', 'b']
  else if c = '\x0c' then ['\\', 'f']
  else if c.toNat < 32 then
    ['\\', 'u', '0', '0', hexDigit (c.toNat / 16), hexDigit (c.toNat % 16)]
  else [c]

/-- Character-wise escaping of a string body, the text JSON.stringify
places between the surrounding quotes. -/
def escapeString : List Char → List Char
  | [] => []
  | c :: cs => escChar c ++ escapeString cs

/-- Inverse of the documented escaping: a JSON string-body unescape
that maps each escape sequence back to the character it stands for and
leaves other characters alone. -/
def unescape : List Char → List Char
  | [] => []
  | '\\' :: 'n' :: r => '\n' :: unescape r
  | '\\' :: 'r' :: r => '\r' :: unescape r
  | '\\' :: 't' :: r => '\t' :: unescape r
  | '\\' :: 'b' :: r => '\x08' :: unescape r
  | '\\' :: 'f' :: r => '\x0c' :: unescape r
  | '\\' :: 'u' :: a :: b :: e :: f :: r =>
      Char.ofNat (4096 * hexVal a + 256 * hexVal b + 16 * hexVal e + hexVal f)
        :: unescape r
  | '\\' :: d :: r => d :: unescape r
  | c :: r => c :: unescape r

/-- The character sequence interpolated for JSON.stringify(rawValue) in
the template literals at lines 118-119: strings as their quoted escaped
form, and non-string values by their serialization (an undefined
parameter interpolates as the text undefined). -/
def jsonStringifyChars : JSValue → List Char
  | .str s => '"' :: escapeString s.data ++ ['"']
  | .num n => (toString n).data
  | .boolean true => ("true").data
  | .boolean false => ("false").data
  | .jnull => ("null").data
  | .undef => ("undefined").data

/-- The replacement text substituted for one placeholder match
(lines 118-120): the hyphen, the captured identifier, an equals sign
and the serialized value, with an extra pair of quotes wrapped around
non-string values. -/
def replacementFor (name : List Char) (v : JSValue) : List Char :=
  if isStringValue v then '-' :: name ++ '=' :: jsonStringifyChars v
  else '-' :: name ++ '=' :: '"' :: (jsonStringifyChars v ++ ['"'])

/-- JavaScript word characters, the character class the backslash-w
escape matches (ASCII letters, digits and underscore); the regex at
line 49 uses its complement between the placeholder tokens. -/
def isWordChar (c : Char) : Bool :=
  c.isAlpha || c.isDigit || c = '_'

/-- Maximal non-word prefix of a character list and the remaining
suffix. -/
def takeNonWord : List Char → List Char × List Char
  | [] => ([], [])
  | c :: cs =>
      if isWordChar c then ([], c :: cs)
      else
        let p := takeNonWord cs
        (c :: p.1, p.2)

/-- Maximal ASCII-alphanumeric prefix of a character list and the
remaining suffix, the greedy tail of the captured identifier. -/
def takeAlnum : List Char → List Char × List Char
  | [] => ([], [])
  | c :: cs =>
      if c.isAlphanum then
        let p := takeAlnum cs
        (c :: p.1, p.2)
      else ([], c :: cs)

/-- Backtracking match of the regex tail consisting of a non-word star
followed by a question mark, preferring the longest star expansion;
returns the suffix after the match. -/
def matchWQ : List Char → Option (List Char)
  | [] => none
  | c :: cs =>
      if isWordChar c then none
      else
        match matchWQ cs with
        | some r => some r
        | none => if c = '?' then some cs else none

/-- Backtracking match of the regex tail consisting of a non-word star,
an equals sign, a non-word star and a question mark, preferring the
longest first star expansion; returns the suffix after the match. -/
def matchWEqWQ : List Char → Option (List Char)
  | [] => none
  | c :: cs =>
      if isWordChar c then none
      else
        match matchWEqWQ cs with
        | some r => some r
        | none => if c = '=' then matchWQ cs else none

/-- Match of the placeholder regex of line 49 after its leading hyphen:
a non-word star, the captured identifier (letter then alphanumerics),
and the equals and question-mark tail; returns the identifier and the
suffix after the match. -/
def matchAfterDash (s : List Char) : Option (List Char × List Char) :=
  match (takeNonWord s).2 with
  | [] => none
  | c :: cs =>
      if c.isAlpha then
        let p := takeAlnum cs
        match matchWEqWQ p.2 with
        | some rest => some (c :: p.1, rest)
        | none => none
      else none

/-- Anchored match of the full placeholder regex of line 49 at the head
of the input. -/
def matchPlaceholder : List Char → Option (List Char × List Char)
  | [] => none
  | c :: cs => if c = '-' then matchAfterDash cs else none

/-- Array.prototype.shift on the parameter sequence (line 116): the
first element (undefined when the sequence is exhausted) and the
mutated remainder. -/
def shiftParam : List JSValue → JSValue × List JSValue
  | [] => (.undef, [])
  | p :: ps => (p, ps)

/-- Fuelled left-to-right global replace of the placeholder regex
(lines 114-121): at each position the anchored match is tried; on a
match the next parameter is shifted off and the replacement emitted,
scanning resuming after the match; otherwise the character is copied.
The fuel only bounds the recursion and is always instantiated with the
input length, which suffices because every match consumes at least its
leading hyphen. -/
def substCommandF : Nat → List Char → List JSValue → List Char × List JSValue
  | 0, s, ps => (s, ps)
  | _ + 1, [], ps => ([], ps)
  | fuel + 1, c :: cs, ps =>
      match matchPlaceholder (c :: cs) with
      | some (name, rest) =>
          let q := shiftParam ps
          let r := substCommandF fuel rest q.2
          (replacementFor name q.1 ++ r.1, r.2)
      | none =>
          let r := substCommandF fuel cs ps
          (c :: r.1, r.2)

/-- The command substitution of execute: the substituted text and the
parameter sequence as the callback left it. -/
def substCommand (s : List Char) (ps : List JSValue) :
    List Char × List JSValue :=
  substCommandF s.length s ps

/-- Fuelled count of placeholder matches of the global replace over a
template. -/
def countPlaceholdersF : Nat → List Char → Nat
  | 0, _ => 0
  | _ + 1, [] => 0
  | fuel + 1, c :: cs =>
      match matchPlaceholder (c :: cs) with
      | some (_, rest) => countPlaceholdersF fuel rest + 1
      | none => countPlaceholdersF fuel cs

/-- Number of placeholder matches of the global replace over a
template. -/
def countPlaceholders (s : List Char) : Nat :=
  countPlaceholdersF s.length s

/-- Fuelled sequence of parameters the replace callback shifts off,
in substitution order. -/
def usedParamsF : Nat → List Char → List JSValue → List JSValue
  | 0, _, _ => []
  | _ + 1, [], _ => []
  | fuel + 1, c :: cs, ps =>
      match matchPlaceholder (c :: cs) with
      | some (_, rest) => (shiftParam ps).1 :: usedParamsF fuel rest (shiftParam ps).2
      | none => usedParamsF fuel cs ps

/-- Sequence of parameters the replace callback shifts off, in
substitution order. -/
def usedParams (s : List Char) (ps : List JSValue) : List JSValue :=
  usedParamsF s.length s ps

/-- Characters encodeURIComponent leaves unescaped: ASCII letters,
digits, and the marks hyphen, underscore, dot, bang, tilde, star,
apostrophe and parentheses. -/
def isUnreservedChar (c : Char) : Bool :=
  c.isAlpha || c.isDigit || c = '-' || c = '_' || c = '.' || c = '!' ||
  c = '~' || c = '*' || c = Char.ofNat 39 || c = '(' || c = ')'

/-- UTF-8 byte sequence of one character, used by the percent escapes
of encodeURIComponent. -/
def utf8Bytes (c : Char) : List Nat :=
  let n := c.toNat
  if n < 128 then [n]
  else if n < 2048 then [192 + n / 64, 128 + n % 64]
  else if n < 65536 then [224 + n / 4096, 128 + (n / 64) % 64, 128 + n % 64]
  else [240 + n / 262144, 128 + (n / 4096) % 64, 128 + (n / 64) % 64, 128 + n % 64]

/-- Percent escape of one byte, with uppercase hexadecimal digits. -/
def pctByte (b : Nat) : List Char :=
  ['%', hexDigitU (b / 16), hexDigitU (b % 16)]

/-- encodeURIComponent on a character list (after the implicit string
coercion of its argument): unreserved characters kept, every other
character percent-escaped byte by byte. -/
def encodeURIComponent : List Char → List Char
  | [] => []
  | c :: cs =>
      (if isUnreservedChar c then [c] else (utf8Bytes c).flatMap pctByte) ++
        encodeURIComponent cs

/-- The data object of execute (lines 125-129): the Command and
Converter fields merged with the extras entries by object spread, which
assigns each extras entry in order (overwriting in place on key
collision, appending otherwise). -/
def dataEntries (command converter : String) (extras : List (String × JSValue)) :
    List (String × JSValue) :=
  extras.foldl (fun acc kv => objInsert acc kv.1 kv.2)
    [("Command", JSValue.str command), ("Converter", JSValue.str converter)]

/-- One form field of the request body (line 131): the
percent-encoded key, an equals sign, and the percent-encoded string
coercion of the value. -/
def fieldString (kv : String × JSValue) : List Char :=
  encodeURIComponent kv.1.data ++ '=' :: encodeURIComponent (jsToString kv.2).data

/-- The form-encoded request body (line 131): the fields joined with
ampersands. -/
def bodyOf (entries : List (String × JSValue)) : List Char :=
  List.intercalate ['&'] (entries.map fieldString)

/-- The extras object installed by signInByCode, signInByToken,
signInByPassword and signOut (for example line 412): a NoCert field
holding null. -/
def signInExtras : List (String × JSValue) :=
  [("NoCert", JSValue.jnull)]

/-- Exact-form placeholder tail per the specification text: the rest of
the identifier (letters or digits) followed immediately by an equals
sign and a question mark.  Modelled from the claim wording, for
comparison with the matcher the code actually uses. -/
def exactTail : List Char → Bool
  | [] => false
  | c :: r =>
      if c.isAlphanum then exactTail r
      else
        c = '=' &&
          match r with
          | '?' :: _ => true
          | _ => false

/-- Exact-form placeholder at the head of the input per the
specification text: a hyphen, an identifier (letter then letters or
digits), an equals sign and a question mark, with no other characters
between them.  Modelled from the claim wording. -/
def exactPlaceholderAt : List Char → Bool
  | '-' :: c :: r => c.isAlpha && exactTail r
  | _ => false

/-- Whether any position of the input carries an exact-form
placeholder.  Modelled from the claim wording. -/
def containsExactPlaceholder : List Char → Bool
  | [] => false
  | c :: cs => exactPlaceholderAt (c :: cs) || containsExactPlaceholder cs

/-- Invariant of one invocation of execute, relating the guard flags to
the settlements performed so far: the promise has settled at most once;
an armed timer or a pending decode means nothing has settled yet; a
lowered inTime flag means exactly the timeout rejection happened. -/
def ExecInv {π α : Type} (cfg : ModeConfig π α) (s : ExecState π) : Prop :=
  s.settled.length ≤ 1 ∧
  (s.timerActive = true →
    s.settled = [] ∧ s.inTime = true ∧ s.fetchDone = false ∧ s.decodePending = false) ∧
  (s.decodePending = true →
    s.settled = [] ∧ s.inTime = true ∧ s.fetchDone = true ∧ s.timerActive = false) ∧
  (s.inTime = false →
    s.settled = [cfg.timeoutS] ∧ s.timerActive = false ∧ s.decodePending = false) ∧
  (s.fetchDone = false ∧ s.inTime = true → s.settled = [])

theorem objLookup_objInsert {β : Type} (o : List (String × β)) (k k' : String) (v : β) :
    objLookup (objInsert o k v) k' = if k' = k then some v else objLookup o k' := by
  induction o with
  | nil =>
      by_cases h : k = k'
      · subst h; simp [objInsert, objLookup]
      · have h' : ¬(k' = k) := fun hh => h (Eq.symm hh)
        simp [objInsert, objLookup, h, h']
  | cons p rest ih =>
      obtain ⟨k0, v0⟩ := p
      by_cases h0 : k0 = k
      · subst h0
        by_cases h1 : k0 = k'
        · subst h1; simp [objInsert, objLookup]
        · have h1' : ¬(k' = k0) := fun hh => h1 (Eq.symm hh)
          simp [objInsert, objLookup, h1, h1']
      · by_cases h1 : k0 = k'
        · subst h1
          have h0' : ¬(k0 = k) := h0
          simp [objInsert, objLookup, h0', ih]
        · simp [objInsert, objLookup, h0, h1, ih]

theorem objLookup_foldl_objInsert {γ β : Type} (keyf : γ → String) (valf : γ → β)
    (l : List γ) (acc : List (String × β)) (k : String) :
    objLookup (l.foldl (fun a x => objInsert a (keyf x) (valf x)) acc) k =
      match l.reverse.find? (fun x => keyf x == k) with
      | some x => some (valf x)
      | none => objLookup acc k := by
  induction l generalizing acc with
  | nil => simp
  | cons x xs ih =>
      simp only [List.foldl_cons, List.reverse_cons, List.find?_append]
      rw [ih]
      cases hf : xs.reverse.find? (fun y => keyf y == k) with
      | some y => simp [hf, Option.orElse]
      | none =>
          by_cases hk : keyf x = k
          · simp [hf, hk, Option.orElse, objLookup_objInsert]
          · have hk' : ¬(k = keyf x) := fun hh => hk (Eq.symm hh)
            simp [hf, hk, hk', Option.orElse, objLookup_objInsert]

/-- C10: the option fallbacks of execute trigger on any falsy value,
not only on absence: a timeout of zero (like an absent timeout) is
replaced by the default 120000 milliseconds, an empty-string endpoint
or converter option (like an absent one) falls back to the instance
endpoint resp. the default converter, after which the string is
trimmed; consequently no option choice yields an effective timeout of
zero. -/
theorem claim10_option_falsy_fallbacks :
    (∀ o : ExecOptions, o.timeout = none ∨ o.timeout = some 0 →
        effectiveTimeout o = 120000)
  ∧ (∀ (o : ExecOptions) (instEndpoint : String),
        o.endpoint = none ∨ o.endpoint = some ("") →
        effectiveEndpoint o instEndpoint = jsTrim instEndpoint)
  ∧ (∀ o : ExecOptions, o.converter = none ∨ o.converter = some ("") →
        effectiveConverter o = jsTrim defaultConverter)
  ∧ (∀ o : ExecOptions, effectiveTimeout o ≠ 0) := by
  refine ⟨?_, ?_, ?_, ?_⟩
  · rintro o (h | h) <;> simp [effectiveTimeout, h]
  · rintro o inst (h | h) <;> simp [effectiveEndpoint, h]
  · rintro o (h | h) <;> simp [effectiveConverter, h]
  · intro o
    cases h : o.timeout with
    | none => simp [effectiveTimeout, h]
    | some t =>
        by_cases ht : t = 0 <;> simp [effectiveTimeout, h, ht]

theorem claim10_witness :
    effectiveTimeout ⟨none, none, some 0⟩ = 120000 ∧
    effectiveEndpoint ⟨some (""), none, none⟩ ("http://ami.example/AMI") =
      jsTrim ("http://ami.example/AMI") ∧
    effectiveConverter ⟨none, some (""), none⟩ = jsTrim defaultConverter :=
  ⟨claim10_option_falsy_fallbacks.1 ⟨none, none, some 0⟩ (Or.inr rfl),
   claim10_option_falsy_fallbacks.2.1 ⟨some (""), none, none⟩ _ (Or.inr rfl),
   claim10_option_falsy_fallbacks.2.2.1 ⟨none, some (""), none⟩ (Or.inr rfl)⟩

/-- C1: in the structured mode of execute a decoded envelope is
classified as success exactly when it carries zero error messages; in
particular an envelope with empty error and info lists resolves, and
the presence of error messages rejects no matter what the info list
holds. -/
theorem claim1_error_classification :
    jsonConfig.decodeOkS = classifySettlement
  ∧ (∀ d : JSData,
        (classifySettlement d).isSuccess = true ↔ (errorsOf d).length = 0)
  ∧ (classifySettlement ⟨[⟨[], []⟩], []⟩).isSuccess = true := by
  refine ⟨rfl, ?_, ?_⟩
  · intro d
    by_cases h : (errorsOf d).length = 0 <;>
      simp [classifySettlement, h, Settlement.isSuccess]
  · decide

/-- C4: on any Executor failure the session-normalizing wrapper settles
with the fixed guest record in the user-identity position and empty
role, bookmark, dashboard and awf mappings, passing the failure payload
and message through unchanged; and the guest record does map AMIUser to
guest. -/
theorem claim4_guest_fallback :
    (∀ (d : JSData) (m : String),
        getUserInfo (ExecResult.err d m) =
          ⟨false, d, m, guest, [], [], [], []⟩)
  ∧ objLookup guest ("AMIUser") = some ("guest")
  ∧ objLookup guest ("valid") = some ("false") :=
  ⟨fun _ _ => rfl, by decide, by decide⟩

/-- C9: the keyed rowset folds of getUserInfo file each row under the
value of its key field (name for roles, hash for bookmarks and
dashboards) mapped to the row's full field object, looking up a key
returns the last row with that key value (last write wins, no
de-duplication error), a rowset with zero rows folds to the present but
empty mapping, and two role rows named admin and user yield exactly
those two keys with their field objects. -/
theorem claim9_rowset_folding :
    (∀ (key : String) (rows : List Row) (k : String),
        objLookup (foldKeyedRows key rows) k =
          (rows.reverse.find? (fun r => rowKeyVal key r == k)).map
            (fun r => foldFields r.field))
  ∧ (∀ key : String, foldKeyedRows key [] = [])
  ∧ (∀ r1 r2 : Row, rowKeyVal ("name") r1 = "admin" →
        rowKeyVal ("name") r2 = "user" →
        foldKeyedRows ("name") [r1, r2] =
          [("admin", foldFields r1.field), ("user", foldFields r2.field)]) := by
  refine ⟨?_, fun _ => rfl, ?_⟩
  · intro key rows k
    have h := objLookup_foldl_objInsert (fun r => rowKeyVal key r)
      (fun r => foldFields r.field) rows [] k
    rw [foldKeyedRows] at *
    rw [h]
    cases hf : rows.reverse.find? (fun r => rowKeyVal key r == k) <;>
      simp [hf, objLookup]
  · intro r1 r2 h1 h2
    simp [foldKeyedRows, objInsert, h1, h2]

theorem claim9_witness :
    foldKeyedRows ("name")
        [Row.mk [RowField.mk ("name") ("admin")], Row.mk [RowField.mk ("name") ("user")]] =
      [("admin", foldFields [RowField.mk ("name") ("admin")]),
       ("user", foldFields [RowField.mk ("name") ("user")])] :=
  claim9_rowset_folding.2.2 (Row.mk [RowField.mk ("name") ("admin")])
    (Row.mk [RowField.mk ("name") ("user")]) (by decide) (by decide)

theorem execInv_init {π α : Type} (cfg : ModeConfig π α) :
    ExecInv cfg (execInit π) := by
  simp [ExecInv, execInit]

theorem execInv_step {π α : Type} (cfg : ModeConfig π α) (s : ExecState π)
    (hs : ExecInv cfg s) (e : ExecEvent α) : ExecInv cfg (execStep cfg s e) := by
  obtain ⟨h1, h2, h3, h4, h5⟩ := hs
  cases e with
  | timerFire =>
      by_cases ht : s.timerActive
      · obtain ⟨hs0, hin, hfd, hdp⟩ := h2 ht
        simp [execStep, ht, ExecInv, hs0, hfd, hdp]
      · simpa [execStep, ht] using ⟨h1, h2, h3, h4, h5⟩
  | fetchOk =>
      by_cases hf : s.fetchDone
      · simpa [execStep, hf] using ⟨h1, h2, h3, h4, h5⟩
      · by_cases hin : s.inTime
        · have hs0 := h5 ⟨by simpa using hf, by simpa using hin⟩
          simp [execStep, hf, ExecInv, hs0, hin]
        · obtain ⟨hs0, hta, hdp⟩ := h4 (by simpa using hin)
          simp [execStep, hf, ExecInv, hs0, by simpa using hin]
  | fetchErr =>
      by_cases hf : s.fetchDone
      · simpa [execStep, hf] using ⟨h1, h2, h3, h4, h5⟩
      · by_cases hin : s.inTime
        · have hs0 := h5 ⟨by simpa using hf, by simpa using hin⟩
          simp [execStep, hf, ExecInv, hs0, hin]
        · obtain ⟨hs0, hta, hdp⟩ := h4 (by simpa using hin)
          simp [execStep, hf, ExecInv, hs0, by simpa using hin]
  | decodeOk a =>
      by_cases hd : s.decodePending
      · obtain ⟨hs0, hin, hfd, hta⟩ := h3 hd
        simp [execStep, hd, ExecInv, hs0, hin, hfd, hta]
      · simpa [execStep, hd] using ⟨h1, h2, h3, h4, h5⟩
  | decodeErr =>
      by_cases hd : s.decodePending
      · obtain ⟨hs0, hin, hfd, hta⟩ := h3 hd
        simp [execStep, hd, ExecInv, hs0, hin, hfd, hta]
      · simpa [execStep, hd] using ⟨h1, h2, h3, h4, h5⟩

theorem execInv_foldl {π α : Type} (cfg : ModeConfig π α)
    (es : List (ExecEvent α)) (s : ExecState π) (hs : ExecInv cfg s) :
    ExecInv cfg (es.foldl (execStep cfg) s) := by
  induction es generalizing s with
  | nil => simpa using hs
  | cons e es ih => exact ih _ (execInv_step cfg s hs e)

theorem execStep_dead {π α : Type} (cfg : ModeConfig π α) (s : ExecState π)
    (hta : s.timerActive = false) (hdp : s.decodePending = false)
    (hin : s.inTime = false) (e : ExecEvent α) :
    (execStep cfg s e).settled = s.settled ∧
    (execStep cfg s e).timerActive = false ∧
    (execStep cfg s e).decodePending = false ∧
    (execStep cfg s e).inTime = false := by
  cases e with
  | timerFire => simp [execStep, hta, hdp, hin]
  | fetchOk => by_cases hf : s.fetchDone <;> simp [execStep, hf, hta, hdp, hin]
  | fetchErr => by_cases hf : s.fetchDone <;> simp [execStep, hf, hta, hdp, hin]
  | decodeOk a => simp [execStep, hdp, hta, hin]
  | decodeErr => simp [execStep, hdp, hta, hin]

theorem execFoldl_dead {π α : Type} (cfg : ModeConfig π α)
    (es : List (ExecEvent α)) (s : ExecState π)
    (hta : s.timerActive = false) (hdp : s.decodePending = false)
    (hin : s.inTime = false) :
    (es.foldl (execStep cfg) s).settled = s.settled := by
  induction es generalizing s with
  | nil => rfl
  | cons e es ih =>
      obtain ⟨hsame, hta', hdp', hin'⟩ := execStep_dead cfg s hta hdp hin e
      simpa [hsame] using ih (execStep cfg s e) hta' hdp' hin'

theorem execStep_fixed {π α : Type} (cfg : ModeConfig π α) (s : ExecState π)
    (hta : s.timerActive = false) (hdp : s.decodePending = false)
    (hfd : s.fetchDone = true) (e : ExecEvent α) :
    execStep cfg s e = s := by
  cases e with
  | timerFire => simp [execStep, hta]
  | fetchOk => simp [execStep, hfd]
  | fetchErr => simp [execStep, hfd]
  | decodeOk a => simp [execStep, hdp]
  | decodeErr => simp [execStep, hdp]

theorem execFoldl_fixed {π α : Type} (cfg : ModeConfig π α)
    (es : List (ExecEvent α)) (s : ExecState π)
    (hta : s.timerActive = false) (hdp : s.decodePending = false)
    (hfd : s.fetchDone = true) :
    es.foldl (execStep cfg) s = s := by
  induction es with
  | nil => rfl
  | cons e es ih => simpa [execStep_fixed cfg s hta hdp hfd e] using ih

theorem execStep_timerOff {π α : Type} (cfg : ModeConfig π α) (s : ExecState π)
    (hta : s.timerActive = false) (e : ExecEvent α) :
    (execStep cfg s e).timerActive = false := by
  cases e with
  | timerFire => simp [execStep, hta]
  | fetchOk => by_cases hf : s.fetchDone <;> simp [execStep, hf, hta]
  | fetchErr => by_cases hf : s.fetchDone <;> simp [execStep, hf, hta]
  | decodeOk a => by_cases hd : s.decodePending <;> simp [execStep, hd, hta]
  | decodeErr => by_cases hd : s.decodePending <;> simp [execStep, hd, hta]

theorem execFoldl_timerOff {π α : Type} (cfg : ModeConfig π α)
    (es : List (ExecEvent α)) (s : ExecState π) (hta : s.timerActive = false) :
    (es.foldl (execStep cfg) s).timerActive = false := by
  induction es generalizing s with
  | nil => simpa using hta
  | cons e es ih => exact ih _ (execStep_timerOff cfg s hta e)

theorem execStep_fetch_timerOff {π α : Type} (cfg : ModeConfig π α)
    (s : ExecState π) (hs : ExecInv cfg s) (e : ExecEvent α)
    (he : e = ExecEvent.fetchOk ∨ e = ExecEvent.fetchErr) :
    (execStep cfg s e).timerActive = false := by
  obtain ⟨h1, h2, h3, h4, h5⟩ := hs
  have hta : s.fetchDone = true → s.timerActive = false := by
    intro hf
    by_cases ht : s.timerActive
    · exact absurd (h2 ht).2.2.1 (by simp [hf])
    · simpa using ht
  rcases he with he | he <;> subst he
  · by_cases hf : s.fetchDone
    · simp [execStep, hf, hta (by simpa using hf)]
    · simp [execStep, hf]
  · by_cases hf : s.fetchDone
    · simp [execStep, hf, hta (by simpa using hf)]
    · simp [execStep, hf]

theorem execFoldl_fetch_timerOff {π α : Type} (cfg : ModeConfig π α)
    (es : List (ExecEvent α)) (s : ExecState π) (hs : ExecInv cfg s)
    (he : ExecEvent.fetchOk ∈ es ∨ ExecEvent.fetchErr ∈ es) :
    (es.foldl (execStep cfg) s).timerActive = false := by
  induction es generalizing s with
  | nil => rcases he with he | he <;> simp at he
  | cons e es ih =>
      by_cases hmem : ExecEvent.fetchOk ∈ es ∨ ExecEvent.fetchErr ∈ es
      · exact ih _ (execInv_step cfg s hs e) hmem
      · have hcur : e = ExecEvent.fetchOk ∨ e = ExecEvent.fetchErr := by
          push_neg at hmem
          rcases he with he | he <;> rcases List.mem_cons.mp he with h | h
          · exact Or.inl (Eq.symm h)
          · exact absurd h hmem.1
          · exact Or.inr (Eq.symm h)
          · exact absurd h hmem.2
        exact execFoldl_timerOff cfg es _
          (execStep_fetch_timerOff cfg s hs e hcur)

/-- C2: whatever sequence of handler executions an invocation of
execute observes, in either converter mode, the promise settles at most
once; when the timer fires before the transport completes, the
invocation rejects with the fixed timeout settlement and nothing the
transport does afterwards adds a settlement; and once a fetch handler
has run (success or failure) the timer has been cleared, so a later
timer task is a no-op that can be erased from the trace. -/
theorem claim2_at_most_once_settlement :
    (∀ (π α : Type) (cfg : ModeConfig π α) (es : List (ExecEvent α)),
        (execRun cfg es).settled.length ≤ 1)
  ∧ (∀ (π α : Type) (cfg : ModeConfig π α) (es : List (ExecEvent α)),
        (execRun cfg (ExecEvent.timerFire :: es)).settled = [cfg.timeoutS])
  ∧ (∀ (π α : Type) (cfg : ModeConfig π α) (es₁ es₂ : List (ExecEvent α)),
        ExecEvent.fetchOk ∈ es₁ ∨ ExecEvent.fetchErr ∈ es₁ →
        execRun cfg (es₁ ++ ExecEvent.timerFire :: es₂) =
          execRun cfg (es₁ ++ es₂)) := by
  refine ⟨?_, ?_, ?_⟩
  · intro π α cfg es
    exact (execInv_foldl cfg es (execInit π) (execInv_init cfg)).1
  · intro π α cfg es
    have h1 : execStep cfg (execInit π) ExecEvent.timerFire =
        ⟨false, false, false, false, [cfg.timeoutS]⟩ := by
      simp [execStep, execInit]
    calc (execRun cfg (ExecEvent.timerFire :: es)).settled
        = (es.foldl (execStep cfg)
            (⟨false, false, false, false, [cfg.timeoutS]⟩ : ExecState π)).settled := by
          simp [execRun, h1]
      _ = [cfg.timeoutS] := execFoldl_dead cfg es _ rfl rfl rfl
  · intro π α cfg es₁ es₂ he
    have hta : (es₁.foldl (execStep cfg) (execInit π)).timerActive = false :=
      execFoldl_fetch_timerOff cfg es₁ (execInit π) (execInv_init cfg) he
    have hnoop : execStep cfg (es₁.foldl (execStep cfg) (execInit π))
        ExecEvent.timerFire = es₁.foldl (execStep cfg) (execInit π) := by
      simp [execStep, hta]
    simp [execRun, List.foldl_append, hnoop]

theorem claim2_witness :
    execRun jsonConfig ([ExecEvent.fetchOk] ++ ExecEvent.timerFire :: [ExecEvent.decodeErr]) =
      execRun jsonConfig ([ExecEvent.fetchOk] ++ [ExecEvent.decodeErr]) :=
  claim2_at_most_once_settlement.2.2 JSData JSData jsonConfig
    [ExecEvent.fetchOk] [ExecEvent.decodeErr] (Or.inl (by simp))

/-- C3 as the claim states it is false on the code: the fetch catch
handler of the structured branch (line 202) rejects with the single
errorMessage constant of line 53, so a network-level transport failure
is surfaced as resource temporarily unreachable, not as the distinct
message service temporarily unreachable the claim asserts. -/
theorem claim3_counterexample :
    (execRun jsonConfig [ExecEvent.fetchErr]).settled =
      [Settlement.rejected (errorEnvelope errorMessage) errorMessage] ∧
    errorMessage ≠ "service temporarily unreachable" := by
  constructor
  · rfl
  · decide

/-- C3 amended: both a transport-level failure of the fetch call and a
response-decoding failure are surfaced with the same normalized message
resource temporarily unreachable, in raw mode as the rejection value
itself and in structured mode additionally wrapped as the sole error
entry of the synthesized envelope passed as the rejection payload. -/
theorem claim3_amended_failure_messages :
    (∀ es : List (ExecEvent JSData),
        (execRun jsonConfig (ExecEvent.fetchErr :: es)).settled =
          [Settlement.rejected (errorEnvelope errorMessage) errorMessage])
  ∧ (∀ es : List (ExecEvent JSData),
        (execRun jsonConfig (ExecEvent.fetchOk :: ExecEvent.decodeErr :: es)).settled =
          [Settlement.rejected (errorEnvelope errorMessage) errorMessage])
  ∧ (∀ es : List (ExecEvent String),
        (execRun rawConfig (ExecEvent.fetchErr :: es)).settled =
          [Settlement.rejected errorMessage errorMessage])
  ∧ (∀ es : List (ExecEvent String),
        (execRun rawConfig (ExecEvent.fetchOk :: ExecEvent.decodeErr :: es)).settled =
          [Settlement.rejected errorMessage errorMessage])
  ∧ errorsOf (errorEnvelope errorMessage) = [errorMessage]
  ∧ errorMessage = "resource temporarily unreachable" := by
  refine ⟨?_, ?_, ?_, ?_, rfl, rfl⟩
  · intro es
    have h1 : execStep jsonConfig (execInit JSData) ExecEvent.fetchErr =
        ⟨false, true, true, false,
         [Settlement.rejected (errorEnvelope errorMessage) errorMessage]⟩ := by
      simp [execStep, execInit, jsonConfig]
    rw [execRun, List.foldl_cons, h1, execFoldl_fixed _ _ _ rfl rfl rfl]
  · intro es
    have h1 : execStep jsonConfig (execInit JSData) ExecEvent.fetchOk =
        ⟨false, true, true, true, []⟩ := by
      simp [execStep, execInit]
    have h2 : execStep jsonConfig (⟨false, true, true, true, []⟩ : ExecState JSData)
        ExecEvent.decodeErr =
        ⟨false, true, true, false,
         [Settlement.rejected (errorEnvelope errorMessage) errorMessage]⟩ := by
      simp [execStep, jsonConfig]
    rw [execRun, List.foldl_cons, h1, List.foldl_cons, h2,
      execFoldl_fixed _ _ _ rfl rfl rfl]
  · intro es
    have h1 : execStep rawConfig (execInit String) ExecEvent.fetchErr =
        ⟨false, true, true, false,
         [Settlement.rejected errorMessage errorMessage]⟩ := by
      simp [execStep, execInit, rawConfig]
    rw [execRun, List.foldl_cons, h1, execFoldl_fixed _ _ _ rfl rfl rfl]
  · intro es
    have h1 : execStep rawConfig (execInit String) ExecEvent.fetchOk =
        ⟨false, true, true, true, []⟩ := by
      simp [execStep, execInit]
    have h2 : execStep rawConfig (⟨false, true, true, true, []⟩ : ExecState String)
        ExecEvent.decodeErr =
        ⟨false, true, true, false,
         [Settlement.rejected errorMessage errorMessage]⟩ := by
      simp [execStep, rawConfig]
    rw [execRun, List.foldl_cons, h1, List.foldl_cons, h2,
      execFoldl_fixed _ _ _ rfl rfl rfl]

/-- C7 as the claim states it is false on the code: encodeURIComponent
string-coerces its argument, so an extras entry holding null (the
NoCert flag the sign-in entry points install) is emitted as a field
with the literal value null, not as an empty-valued field. -/
theorem claim7_counterexample :
    bodyOf (dataEntries ("GetSessionInfo") defaultConverter signInExtras) =
      ("Command=GetSessionInfo&Converter=AMIXmlToJson.xsl&NoCert=null").data
  ∧ bodyOf (dataEntries ("GetSessionInfo") defaultConverter signInExtras) ≠
      ("Command=GetSessionInfo&Converter=AMIXmlToJson.xsl&NoCert=").data := by
  constructor
  · decide
  · decide

/-- C7 amended: the request body field mapping is the object-spread
merge of the Command and Converter fields with the caller-supplied
extras (extras override on key collision, later entries win), and every
extras key holding null is emitted in the form-encoded body as a field
whose value is the four-character text null. -/
theorem claim7_amended_body_merge :
    (∀ (c v : String) (extras : List (String × JSValue)) (k : String),
        objLookup (dataEntries c v extras) k =
          match extras.reverse.find? (fun kv => kv.1 == k) with
          | some kv => some kv.2
          | none =>
              objLookup [("Command", JSValue.str c), ("Converter", JSValue.str v)] k)
  ∧ (∀ k : String,
        fieldString (k, JSValue.jnull) =
          encodeURIComponent k.data ++ '=' :: ("null").data) := by
  constructor
  · intro c v extras k
    have h := objLookup_foldl_objInsert (fun kv : String × JSValue => kv.1)
      (fun kv : String × JSValue => kv.2) extras
      [("Command", JSValue.str c), ("Converter", JSValue.str v)] k
    rw [dataEntries]
    cases hf : extras.reverse.find? (fun kv => kv.1 == k) with
    | none => rw [hf] at h; simpa using h
    | some kv => rw [hf] at h; simpa using h
  · intro k
    rfl

theorem takeNonWord_snd_length (s : List Char) :
    ((takeNonWord s).2).length ≤ s.length := by
  induction s with
  | nil => simp [takeNonWord]
  | cons c cs ih =>
      by_cases hw : isWordChar c
      · simp [takeNonWord, hw]
      · simp only [takeNonWord, hw]
        simp only [Bool.false_eq_true, if_false]
        calc ((takeNonWord cs).2).length ≤ cs.length := ih
          _ ≤ (c :: cs).length := by simp

theorem takeAlnum_snd_length (s : List Char) :
    ((takeAlnum s).2).length ≤ s.length := by
  induction s with
  | nil => simp [takeAlnum]
  | cons c cs ih =>
      by_cases hw : c.isAlphanum
      · simp only [takeAlnum, hw, if_true]
        calc ((takeAlnum cs).2).length ≤ cs.length := ih
          _ ≤ (c :: cs).length := by simp
      · simp [takeAlnum, hw]

theorem matchWQ_length (s r : List Char) (h : matchWQ s = some r) :
    r.length < s.length := by
  induction s generalizing r with
  | nil => simp [matchWQ] at h
  | cons c cs ih =>
      by_cases hw : isWordChar c
      · simp [matchWQ, hw] at h
      · cases hm : matchWQ cs with
        | some r2 =>
            simp [matchWQ, hw, hm] at h
            subst h
            calc r2.length < cs.length := ih r2 hm
              _ < (c :: cs).length := by simp
        | none =>
            by_cases hq : c = '?'
            · simp [matchWQ, hw, hm, hq] at h
              rw [h.2]; simp
            · simp [matchWQ, hw, hm, hq] at h

theorem matchWEqWQ_length (s r : List Char) (h : matchWEqWQ s = some r) :
    r.length < s.length := by
  induction s generalizing r with
  | nil => simp [matchWEqWQ] at h
  | cons c cs ih =>
      by_cases hw : isWordChar c
      · simp [matchWEqWQ, hw] at h
      · cases hm : matchWEqWQ cs with
        | some r2 =>
            simp [matchWEqWQ, hw, hm] at h
            subst h
            calc r2.length < cs.length := ih r2 hm
              _ < (c :: cs).length := by simp
        | none =>
            by_cases hq : c = '='
            · simp [matchWEqWQ, hw, hm, hq] at h
              calc r.length < cs.length := matchWQ_length cs r h.2
                _ < (c :: cs).length := by simp
            · simp [matchWEqWQ, hw, hm, hq] at h

theorem matchAfterDash_length (s : List Char) (n r : List Char)
    (h : matchAfterDash s = some (n, r)) : r.length < s.length := by
  unfold matchAfterDash at h
  cases h2 : (takeNonWord s).2 with
  | nil => rw [h2] at h; simp at h
  | cons c cs =>
      rw [h2] at h
      have hlen : cs.length + 1 ≤ s.length := by
        have := takeNonWord_snd_length s
        rw [h2] at this
        simpa using this
      by_cases ha : c.isAlpha
      · simp only [ha, if_true] at h
        cases hm : matchWEqWQ (takeAlnum cs).2 with
        | some rest =>
            rw [hm] at h
            simp at h
            obtain ⟨-, hr⟩ := h
            subst hr
            have h3 := matchWEqWQ_length _ _ hm
            have h4 := takeAlnum_snd_length cs
            omega
        | none => rw [hm] at h; simp at h
      · simp [ha] at h

theorem matchPlaceholder_length (s : List Char) (n r : List Char)
    (h : matchPlaceholder s = some (n, r)) : r.length < s.length := by
  cases s with
  | nil => simp [matchPlaceholder] at h
  | cons c cs =>
      by_cases hd : c = '-'
      · simp only [matchPlaceholder, hd, if_true] at h
        calc r.length < cs.length := matchAfterDash_length cs n r h
          _ < (c :: cs).length := by simp
      · simp [matchPlaceholder, hd] at h

theorem substCommandF_params (fuel : Nat) :
    ∀ (s : List Char) (ps : List JSValue), s.length ≤ fuel →
      (substCommandF fuel s ps).2 = ps.drop (countPlaceholdersF fuel s) := by
  induction fuel with
  | zero => intro s ps h; simp [substCommandF, countPlaceholdersF]
  | succ fuel ih =>
      intro s ps h
      cases s with
      | nil => simp [substCommandF, countPlaceholdersF]
      | cons c cs =>
          cases hm : matchPlaceholder (c :: cs) with
          | some p =>
              obtain ⟨name, rest⟩ := p
              have hlen : rest.length ≤ fuel := by
                have := matchPlaceholder_length _ _ _ hm
                simp only [List.length_cons] at h this
                omega
              simp only [substCommandF, countPlaceholdersF, hm]
              rw [ih rest _ hlen]
              cases ps with
              | nil => simp [shiftParam]
              | cons p0 ps2 => simp [shiftParam]
          | none =>
              simp only [substCommandF, countPlaceholdersF, hm]
              exact ih cs ps (by simp only [List.length_cons] at h; omega)

theorem usedParamsF_take (fuel : Nat) :
    ∀ (s : List Char) (ps : List JSValue), s.length ≤ fuel →
      countPlaceholdersF fuel s ≤ ps.length →
      usedParamsF fuel s ps = ps.take (countPlaceholdersF fuel s) := by
  induction fuel with
  | zero => intro s ps h hc; simp [usedParamsF, countPlaceholdersF]
  | succ fuel ih =>
      intro s ps h hc
      cases s with
      | nil => simp [usedParamsF, countPlaceholdersF]
      | cons c cs =>
          cases hm : matchPlaceholder (c :: cs) with
          | some p =>
              obtain ⟨name, rest⟩ := p
              have hlen : rest.length ≤ fuel := by
                have := matchPlaceholder_length _ _ _ hm
                simp only [List.length_cons] at h this
                omega
              simp only [countPlaceholdersF, hm] at hc
              cases ps with
              | nil => simp at hc
              | cons p0 ps2 =>
                  simp only [usedParamsF, countPlaceholdersF, hm, shiftParam]
                  rw [ih rest ps2 hlen (by simpa using hc)]
                  simp
          | none =>
              simp only [usedParamsF, countPlaceholdersF, hm] at hc ⊢
              exact ih cs ps (by simp only [List.length_cons] at h; omega) hc

/-- C5 as the claim states it is false on the code: when a parameter
value itself contains placeholder-shaped text, the substituted output
still contains a token of the documented form (and one the matcher
itself would match), and with exactly as many parameters as
placeholders the mutated sequence is left empty rather than with
unconsumed elements. -/
theorem claim5_counterexample :
    (substCommand (("-a=?").data) [JSValue.str ("-b=?")]).1 =
      ("-a=\"-b=?\"").data
  ∧ containsExactPlaceholder
      ((substCommand (("-a=?").data) [JSValue.str ("-b=?")]).1) = true
  ∧ matchPlaceholder (("-b=?").data) ≠ none
  ∧ (substCommand (("-a=?").data) [JSValue.str ("-b=?")]).2 = [] := by
  refine ⟨by decide, by decide, by decide, by decide⟩

/-- C5 amended: for a template with N placeholder matches, the
substitution consumes exactly the first N elements of the
caller-supplied parameter sequence, strictly left-to-right in match
order, leaving exactly the sequence with its first N elements removed
(so with at least N parameters, N remain consumed and the rest
unconsumed); every placeholder of the template is substituted, although
substituted parameter values may themselves reintroduce
placeholder-shaped tokens into the output. -/
theorem claim5_amended_placeholder_consumption :
    (∀ (s : List Char) (ps : List JSValue),
        (substCommand s ps).2 = ps.drop (countPlaceholders s))
  ∧ (∀ (s : List Char) (ps : List JSValue),
        countPlaceholders s ≤ ps.length →
        usedParams s ps = ps.take (countPlaceholders s)) :=
  ⟨fun s ps => substCommandF_params s.length s ps (Nat.le_refl _),
   fun s ps h => usedParamsF_take s.length s ps (Nat.le_refl _) h⟩

theorem claim5_witness :
    usedParams (("-a=? -b=?").data)
        [JSValue.str ("x"), JSValue.str ("y"), JSValue.str ("z")] =
      [JSValue.str ("x"), JSValue.str ("y"), JSValue.str ("z")].take
        (countPlaceholders (("-a=? -b=?").data)) :=
  claim5_amended_placeholder_consumption.2 (("-a=? -b=?").data)
    [JSValue.str ("x"), JSValue.str ("y"), JSValue.str ("z")] (by decide)

theorem hexVal_hexDigit (n : Nat) (h : n < 16) : hexVal (hexDigit n) = n := by
  interval_cases n <;> decide

theorem unescape_cons_ne (c : Char) (r : List Char) (h : c ≠ '\\') :
    unescape (c :: r) = c :: unescape r := by
  rw [unescape.eq_def]
  split <;> simp_all

theorem unescape_escChar (c : Char) (r : List Char) :
    unescape (escChar c ++ r) = c :: unescape r := by
  by_cases h1 : c = '"'
  · subst h1; simp [escChar]; rfl
  by_cases h2 : c = '\\'
  · subst h2; simp [escChar]; rfl
  by_cases h3 : c = '\n'
  · subst h3; simp [escChar, h1]; rfl
  by_cases h4 : c = '\r'
  · subst h4; simp [escChar, h1, h2]; rfl
  by_cases h5 : c = '\t'
  · subst h5; simp [escChar, h1, h2, h3]; rfl
  by_cases h6 : c = '\x08'
  · subst h6; simp [escChar, h1, h2, h3, h4]; rfl
  by_cases h7 : c = '\x0c'
  · subst h7; simp [escChar, h1, h2, h3, h4, h5]; rfl
  by_cases h8 : c.toNat < 32
  · have e1 : escChar c =
        ['\\', 'u', '0', '0', hexDigit (c.toNat / 16), hexDigit (c.toNat % 16)] := by
      simp [escChar, h1, h2, h3, h4, h5, h6, h7, h8]
    rw [e1]
    have e2 : unescape (['\\', 'u', '0', '0', hexDigit (c.toNat / 16),
        hexDigit (c.toNat % 16)] ++ r) =
        Char.ofNat (4096 * hexVal '0' + 256 * hexVal '0' +
          16 * hexVal (hexDigit (c.toNat / 16)) + hexVal (hexDigit (c.toNat % 16)))
          :: unescape r := rfl
    rw [e2, hexVal_hexDigit _ (by omega), hexVal_hexDigit _ (by omega)]
    have e3 : 4096 * hexVal '0' + 256 * hexVal '0' +
        16 * (c.toNat / 16) + c.toNat % 16 = c.toNat := by
      have h0 : hexVal '0' = 0 := by decide
      rw [h0]
      omega
    rw [e3, Char.ofNat_toNat]
  · have e1 : escChar c = [c] := by
      simp [escChar, h1, h2, h3, h4, h5, h6, h7, h8]
    rw [e1]
    exact unescape_cons_ne c r h2

theorem unescape_escapeString (s : List Char) :
    unescape (escapeString s) = s := by
  induction s with
  | nil => rfl
  | cons c cs ih => rw [escapeString, unescape_escChar, ih]

/-- C6: escaping followed by unescaping is the identity on parameter
values: the replace callback places the escaped, quoted value after the
hyphen, name and equals sign, and unescaping the escaped text with the
inverse of the documented escaping reproduces the original string
exactly, for every string value, in particular ones containing
backslashes, newlines and double quotes. -/
theorem claim6_escaping_round_trip :
    (∀ (name : List Char) (s : String),
        replacementFor name (JSValue.str s) =
          '-' :: name ++ '=' :: '"' :: (escapeString s.data ++ ['"']))
  ∧ (∀ s : List Char, unescape (escapeString s) = s)
  ∧ unescape (escapeString (("a\\b\nc\"d").data)) = ("a\\b\nc\"d").data :=
  ⟨fun _ _ => rfl, unescape_escapeString,
   unescape_escapeString (("a\\b\nc\"d").data)⟩

theorem takeAlnum_append (t : List Char) (c0 : Char) (r : List Char)
    (ht : ∀ c ∈ t, c.isAlphanum = true) (hc : c0.isAlphanum = false) :
    takeAlnum (t ++ c0 :: r) = (t, c0 :: r) := by
  induction t with
  | nil => simp [takeAlnum, hc]
  | cons a t2 ih =>
      have ha : a.isAlphanum = true := ht a (by simp)
      have ih2 := ih (fun c hcm => ht c (by simp [hcm]))
      simp [takeAlnum, ha, ih2]

theorem matchWQ_stop (rest : List Char)
    (h : rest = [] ∨ ∃ c1 rest2, rest = c1 :: rest2 ∧ isWordChar c1 = true) :
    matchWQ rest = none := by
  rcases h with h | ⟨c1, rest2, h, hw⟩
  · subst h; simp [matchWQ]
  · subst h; simp [matchWQ, hw]

theorem matchWEqWQ_stop (rest : List Char)
    (h : rest = [] ∨ ∃ c1 rest2, rest = c1 :: rest2 ∧ isWordChar c1 = true) :
    matchWEqWQ rest = none := by
  rcases h with h | ⟨c1, rest2, h, hw⟩
  · subst h; simp [matchWEqWQ]
  · subst h; simp [matchWEqWQ, hw]

/-- C8 as the claim states it is false on the code: the regex at line
49 accepts non-word characters between the hyphen, the identifier, the
equals sign and the question mark, so a template containing no
substring of the exact documented form is nevertheless substituted (a
parameter is consumed and a replacement emitted). -/
theorem claim8_counterexample :
    containsExactPlaceholder (("-a = ?").data) = false
  ∧ matchPlaceholder (("-a = ?").data) = some (("a").data, [])
  ∧ (substCommand (("-a = ?").data) [JSValue.str ("x")]).1 = ("-a=\"x\"").data
  ∧ (substCommand (("-a = ?").data) [JSValue.str ("x")]).2 = [] := by
  refine ⟨by decide, by decide, by decide, by decide⟩

/-- C8 amended: the exact documented form (hyphen, identifier of a
letter followed by letters or digits, equals sign, question mark, with
nothing between) is always treated as a placeholder whenever the text
that follows cannot extend the match (it is empty or starts with a word
character), but exactness is not necessary: the matcher also accepts
non-word characters between the four tokens. -/
theorem claim8_amended_placeholder_form :
    ∀ (c0 : Char) (tl rest : List Char),
      c0.isAlpha = true →
      (∀ c ∈ tl, c.isAlphanum = true) →
      (rest = [] ∨ ∃ c1 rest2, rest = c1 :: rest2 ∧ isWordChar c1 = true) →
      matchPlaceholder ('-' :: c0 :: (tl ++ '=' :: '?' :: rest)) =
        some (c0 :: tl, rest) := by
  intro c0 tl rest h0 htl hrest
  have hword : isWordChar c0 = true := by simp [isWordChar, h0]
  have htake : takeAlnum (tl ++ '=' :: '?' :: rest) = (tl, '=' :: '?' :: rest) :=
    takeAlnum_append tl '=' ('?' :: rest) htl (by decide)
  have hWQrest : matchWQ rest = none := matchWQ_stop rest hrest
  have hWErest : matchWEqWQ rest = none := matchWEqWQ_stop rest hrest
  have hWQ : matchWQ ('?' :: rest) = some rest := by
    simp [matchWQ, hWQrest, isWordChar]
  have hWE2 : matchWEqWQ ('?' :: rest) = none := by
    simp [matchWEqWQ, hWErest, isWordChar]
  have hWE : matchWEqWQ ('=' :: '?' :: rest) = some rest := by
    have hwe : isWordChar '=' = false := by decide
    generalize hg : ('?' :: rest) = cs at hWQ hWE2 ⊢
    simp [matchWEqWQ, hwe, hWE2, hWQ]
  simp [matchPlaceholder, matchAfterDash, takeNonWord, hword, h0, htake, hWE]

theorem claim8_witness :
    matchPlaceholder ('-' :: 'a' :: ([] ++ '=' :: '?' :: [('x' : Char)])) =
      some ('a' :: [], [('x' : Char)]) :=
  claim8_amended_placeholder_form 'a' [] [('x' : Char)] (by decide)
    (by simp) (Or.inr ⟨'x', [], rfl, by decide⟩)
